import Mathlib

/-!
Shallow embedding of the interview-session core of the AI_HR_MA repository:
the session lifecycle manager (`app/interview_flow/session_manager.py`) and
the score aggregation engine (`app/scoring/score_engine.py`), together with
the value types they exchange.  Python floats are modelled by `Rat`,
`datetime` instants by `Rat` timestamps, and the nondeterministic inputs
(`uuid.uuid4()`, `datetime.now()`) are passed explicitly as arguments.
Fallible operations return an `Except` value next to the (possibly
unchanged) store, mirroring the fact that the Python code raises before
any mutation in its error paths.
-/

namespace AIHR

/-! ## Text matching (re.search with word boundaries, and substring tests) -/

/-- A word character in the sense of the regex `\b` boundary (ASCII `\w`). -/
def isWordChar (c : Char) : Bool := c.isAlphanum || c == '_'

/-- Word-character test lifted to an optional character; the edge of the
string counts as a non-word character. -/
def optWordChar : Option Char → Bool
  | some c => isWordChar c
  | none => false

/-- Does the pattern `p` occur at the very beginning of `s`? -/
def chStarts : List Char → List Char → Bool
  | [], _ => true
  | _ :: _, [] => false
  | a :: as, b :: bs => a == b && chStarts as bs

/-- Last character of the list, falling back to `prev` when it is empty. -/
def lastOr (prev : Option Char) : List Char → Option Char
  | [] => prev
  | c :: cs => lastOr (some c) cs

/-- Does the literal pattern `p` match at the current position, with `prev`
the character immediately before that position, such that both ends of the
match sit on a `\b` word boundary? -/
def wwAt (prev : Option Char) (p s : List Char) : Bool :=
  chStarts p s
    && (optWordChar prev != optWordChar s.head?)
    && (optWordChar (lastOr prev p) != optWordChar (s.drop p.length).head?)

/-- Search for a whole-word occurrence of `p` anywhere in `s`; `prev` is the
character just before the current position. -/
def wwSearch (prev : Option Char) (p s : List Char) : Bool :=
  wwAt prev p s ||
    match s with
    | [] => false
    | c :: cs => wwSearch (some c) p cs

/-- Model of `re.search(r'\b' + re.escape(pat) + r'\b', text)` viewed as a
Boolean: a whole-word occurrence of the literal `pat` inside `text`. -/
def wholeWordMatch (text pat : String) : Bool :=
  wwSearch none pat.toList text.toList

/-- Plain substring search, `chStarts` tried at every position. -/
def subSearch (p s : List Char) : Bool :=
  chStarts p s ||
    match s with
    | [] => false
    | _ :: cs => subSearch p cs

/-- Model of the Python membership test `pat in text` on strings. -/
def containsStr (text pat : String) : Bool :=
  subSearch pat.toList text.toList

/-- Model of `str.lower()` (ASCII, which covers every string the code
matches against): lower-case every character. -/
def strLower (s : String) : String := String.mk (s.toList.map Char.toLower)

/-- Python builtin `min` on two floats: the first argument when the two are
equal, written as an explicit test so that it evaluates. -/
def pymin (a b : Rat) : Rat := if a ≤ b then a else b

/-- Python builtin `max` on two floats. -/
def pymax (a b : Rat) : Rat := if b ≤ a then a else b

/-! ## Value types -/

/-- A question record, as produced by `Question.dict()` of
`app/question_engine/schemas.py` and consumed through dictionary lookups in
`session_manager.py` and `score_engine.py`.  The field set is the one used
by `question_bank.py` and by those lookups: `id`, `skill`, `difficulty`
(the string values "easy" / "medium" / "hard"), `type` (the string values
"theory" / "case"), `question`, `expected_topics`. -/
structure Question where
  id : Nat
  skill : String
  difficulty : String
  type : String
  question : String
  expected_topics : List String
deriving DecidableEq

/-- An answer record (`Answer` of `app/interview_flow/schemas.py`), built by
the answer handler from the submitted text and the stopped timer. -/
structure Answer where
  question_id : Nat
  answer_text : String
  time_spent : Rat
  is_timeout : Bool
deriving DecidableEq

inductive SessionStatus where
  | active
  | finished
deriving DecidableEq

/-- The summary view returned by `SessionManager.get_session_summary`. -/
structure SessionSummary where
  session_id : String
  candidate_name : String
  total_questions : Nat
  answered_questions : Nat
  total_time_spent : Rat
  status : SessionStatus
  answers : List Answer
deriving DecidableEq

/-- The four-part score produced by `ScoreEngine.aggregate`
(`ScoreBreakdown` of `app/scoring/schemas.py`). -/
structure ScoreBreakdown where
  knowledge_score : Rat
  honesty_score : Rat
  time_behavior_score : Rat
  problem_solving_score : Rat
deriving DecidableEq

/-- Modelled from the spec: one entry of `analysis_results` in the integrity
report (`app/answer_analysis/schemas.py` is not among the sources); it
carries a type tag such as "time_behavior" and a score, read by
`ScoreEngine.aggregate` as `res.type` and `res.score`. -/
structure AnalysisResult where
  type : String
  score : Rat
deriving DecidableEq

/-- Modelled from the spec: the per-answer portion of the integrity report,
holding the `analysis_results` list that `aggregate` iterates over. -/
structure AnswerReport where
  analysis_results : List AnalysisResult
deriving DecidableEq

/-- Modelled from the spec: `FullIntegrityReport`
(`app/answer_analysis/schemas.py` is not among the sources) — the fields
`aggregate` reads: per-answer reports and the overall honesty score. -/
structure FullIntegrityReport where
  answer_reports : List AnswerReport
  overall_honesty_score : Rat
deriving DecidableEq

/-- Modelled from the spec: honesty scores and per-answer analysis scores in
an integrity report are fractions in [0, 1]; `aggregate` scales them by 100. -/
def FullIntegrityReport.validB (r : FullIntegrityReport) : Bool :=
  decide (0 ≤ r.overall_honesty_score) && decide (r.overall_honesty_score ≤ 1)
    && r.answer_reports.all (fun ar =>
        ar.analysis_results.all (fun res =>
          decide (0 ≤ res.score) && decide (res.score ≤ 1)))

/-! ## Association-list store primitives (Python dict assignment / lookup) -/

/-- Python `d[k] = v`: bind `k` to `v`, shadowing and dropping any previous
binding. -/
def setKey {α : Type} (k : String) (v : α) (l : List (String × α)) :
    List (String × α) :=
  (k, v) :: l.filter (fun p => p.1 != k)

/-- Python `del d[k]`. -/
def delKey {α : Type} (k : String) (l : List (String × α)) :
    List (String × α) :=
  l.filter (fun p => p.1 != k)

/-- Python `d.get(k)`. -/
def getKey {α : Type} (k : String) (l : List (String × α)) : Option α :=
  (l.find? (fun p => p.1 == k)).map (fun p => p.2)

/-! ## ScoreEngine -/

/-- The dictionary comprehension `{q["id"]: q for q in questions}` followed
by `.get(qid)`: later entries shadow earlier ones, so the lookup returns the
last question bearing the id. -/
def qLookup (questions : List Question) (qid : Nat) : Option Question :=
  questions.reverse.find? (fun q => q.id == qid)

/-- The fixed technical-vocabulary list of `calculate_technical_scores`. -/
def technical_keywords : List String :=
  ["implementation", "performance", "complexity", "architecture", "pattern", "logic"]

/-- The fixed strategic-language markers of `calculate_technical_scores`. -/
def ps_markers : List String :=
  ["trade-off", "alternative", "depends", "strategy", "handling", "solution", "scale"]

/-- The answer loop of `ScoreEngine.calculate_technical_scores`: walks the
answers once, appending to `technical_scores` for every answer (0 for an
empty or timed-out answer) and to `problem_solving_scores` only for answers
that pass the empty/timeout guard (the Python `continue`). -/
def scoreLists (questions : List Question) : List Answer → List Rat × List Rat
  | [] => ([], [])
  | answer :: rest =>
    let tl := scoreLists questions rest
    let q_data := qLookup questions answer.question_id
    let expected := match q_data with
      | some q => q.expected_topics
      | none => []
    if answer.answer_text = "" ∨ answer.is_timeout then
      (0 :: tl.1, tl.2)
    else
      let lowText := strLower answer.answer_text
      let topicMatches : Nat :=
        (expected.filter (fun topic => wholeWordMatch lowText (strLower topic))).length
      let knowledge_base : Rat :=
        if expected.isEmpty then 50 else ((topicMatches : Rat) / (expected.length : Rat)) * 100
      let depth_bonus : Rat :=
        5 * ((technical_keywords.filter (fun word => containsStr lowText word)).length : Rat)
      let knowledge_final : Rat := pymin 100 (knowledge_base + depth_bonus)
      let is_case := match q_data with
        | some q => q.type == "case"
        | none => false
      let ps_score : Rat :=
        if is_case then
          let ps_matches : Rat :=
            10 * ((ps_markers.filter (fun m => containsStr lowText m)).length : Rat)
          pymin 100 (knowledge_base + ps_matches)
        else
          knowledge_final * 0.8
      (knowledge_final :: tl.1, ps_score :: tl.2)

/-- Result of `calculate_technical_scores`: the dict
`{"knowledge": ..., "problem_solving": ...}`. -/
structure TechScores where
  knowledge : Rat
  problem_solving : Rat
deriving DecidableEq

/-- The guarded average `sum(l) / len(l) if l else 0`. -/
def meanList (l : List Rat) : Rat :=
  if l.isEmpty then 0 else l.sum / (l.length : Rat)

/-- Model of `ScoreEngine.calculate_technical_scores`. -/
def calculate_technical_scores (summary : SessionSummary)
    (questions : List Question) : TechScores :=
  let lists := scoreLists questions summary.answers
  { knowledge := meanList lists.1
    problem_solving := meanList lists.2 }

/-- Python `round` on an exact rational: round half to even. -/
def rndHalfEven (x : Rat) : Int :=
  let f : Int := ⌊x⌋
  if x - f < 1 / 2 then f
  else if 1 / 2 < x - f then f + 1
  else if f % 2 = 0 then f else f + 1

/-- Python `round(x, 2)`. -/
def round2 (x : Rat) : Rat := (rndHalfEven (x * 100) : Rat) / 100

/-- The time-behavior collection loop of `ScoreEngine.aggregate`: the scores
(scaled by 100) of every analysis result whose type is "time_behavior",
in report order. -/
def timeScoresOf (report : FullIntegrityReport) : List Rat :=
  report.answer_reports.foldr
    (fun ar acc =>
      ((ar.analysis_results.filter (fun res => res.type == "time_behavior")).map
        (fun res => res.score * 100)) ++ acc) []

/-- Model of `ScoreEngine.aggregate`. -/
def aggregate (summary : SessionSummary) (integrity_report : FullIntegrityReport)
    (questions : List Question) : ScoreBreakdown :=
  let tech := calculate_technical_scores summary questions
  let honesty := integrity_report.overall_honesty_score * 100
  let time_scores := timeScoresOf integrity_report
  let avg_time_score := if time_scores.isEmpty then 50
    else time_scores.sum / (time_scores.length : Rat)
  { knowledge_score := round2 tech.knowledge
    honesty_score := round2 honesty
    time_behavior_score := round2 avg_time_score
    problem_solving_score := round2 tech.problem_solving }

/-- The four weights of one difficulty-mix entry of the weight table
(`app/scoring/weight_config.py`), keyed "knowledge", "honesty", "time",
"problem_solving" in `calculate_final_weighted_score`. -/
structure Weights where
  knowledge : Rat
  honesty : Rat
  time : Rat
  problem_solving : Rat
deriving DecidableEq

/-- Modelled from the spec: `get_weights` of `app/scoring/weight_config.py`
(not among the sources) looks the difficulty-mix key up in the configured
weight table; a missing key is a configuration error.  The table itself is
passed explicitly since its concrete values are configuration. -/
def get_weights (table : List (String × Weights)) (difficulty_mix : String) :
    Option Weights :=
  getKey difficulty_mix table

/-- Model of `ScoreEngine.calculate_final_weighted_score`:
`int(round(Σ weight_i * subscore_i))`, a configuration error when the mix
key has no weight entry. -/
def calculate_final_weighted_score (table : List (String × Weights))
    (breakdown : ScoreBreakdown) (difficulty_mix : String) : Except String Int :=
  match get_weights table difficulty_mix with
  | none => .error "unknown difficulty mix"
  | some weights =>
    .ok (rndHalfEven
      (breakdown.knowledge_score * weights.knowledge +
        breakdown.honesty_score * weights.honesty +
        breakdown.time_behavior_score * weights.time +
        breakdown.problem_solving_score * weights.problem_solving))

end AIHR

namespace AIHR

/-! ## Session lifecycle (SessionManager) -/

/-- The transient view of the question currently being asked
(`QuestionProgress` of `app/interview_flow/schemas.py`); `time_remaining`
starts out at the full difficulty limit, matching the freshly started timer. -/
structure QuestionProgress where
  question_id : Nat
  question_text : String
  skill : String
  difficulty : String
  time_limit : Rat
  started_at : Rat
  time_remaining : Rat
deriving DecidableEq

/-- One interview session (`InterviewSession` of
`app/interview_flow/schemas.py`); `questions` holds the per-question dicts
the session was created from. -/
structure InterviewSession where
  session_id : String
  candidate_id : String
  candidate_name : String
  start_time : Rat
  end_time : Option Rat
  status : SessionStatus
  total_questions : Nat
  current_question_index : Nat
  questions : List Question
  answers : List Answer
  current_question : Option QuestionProgress
deriving DecidableEq

/-- Modelled from the spec: the per-question `Timer` of
`app/interview_flow/timer.py` (not among the sources) — a fixed
difficulty-determined limit and the start instant recorded by `start()`. -/
structure Timer where
  limit : Rat
  started : Rat
deriving DecidableEq

/-- Modelled from the spec: `Timer.get_time_limit`, the deterministic
difficulty-to-seconds mapping with EASY < MEDIUM < HARD; the concrete
seconds are configuration (an unknown difficulty, a configuration error in
the spec, is given limit 0 here — no session in the claims carries one). -/
def getTimeLimit (difficulty : String) : Rat :=
  if difficulty == "easy" then 60
  else if difficulty == "medium" then 120
  else if difficulty == "hard" then 180
  else 0

/-- Modelled from the spec: `Timer.stop()` — elapsed wall-clock time since
`start()`, clamped to `[0, limit]`. -/
def Timer.stop (tm : Timer) (now : Rat) : Rat :=
  pymin (pymax 0 (now - tm.started)) tm.limit

/-- Modelled from the spec: `Timer.is_timeout()` — true iff the elapsed time
has reached the limit. -/
def Timer.isTimeout (tm : Timer) (now : Rat) : Bool :=
  decide (tm.limit ≤ now - tm.started)

/-- The in-memory store of a `SessionManager` instance: `self.sessions`,
`self.timers`, and (for `AnswerHandler`, whose only hidden state is the
per-session running total of time spent) `self.answer_handlers`. -/
structure SMState where
  sessions : List (String × InterviewSession)
  timers : List (String × Timer)
  handler_totals : List (String × Rat)
deriving DecidableEq

/-- Model of `SessionManager._start_next_question`: when questions remain,
build the next `QuestionProgress` and start a fresh timer; otherwise leave
the store untouched. -/
def start_next_question (st : SMState) (session_id : String) (now : Rat) : SMState :=
  match getKey session_id st.sessions with
  | none => st
  | some session =>
    if h : session.current_question_index < session.questions.length then
      let question_data := session.questions.get ⟨session.current_question_index, h⟩
      let limit := getTimeLimit question_data.difficulty
      let question_progress : QuestionProgress :=
        { question_id := question_data.id
          question_text := question_data.question
          skill := question_data.skill
          difficulty := question_data.difficulty
          time_limit := limit
          started_at := now
          time_remaining := limit }
      let timer : Timer := { limit := limit, started := now }
      { st with
          sessions := setKey session_id
            { session with current_question := some question_progress } st.sessions
          timers := setKey session_id timer st.timers }
    else st

/-- Model of `SessionManager.create_session`: store a fresh ACTIVE session at
index 0 with no answers, then start the first question.  The session id
(`uuid.uuid4()`) and the creation instant (`datetime.now()`) are passed in.
Returns the updated store with the stored session. -/
def create_session (st : SMState) (session_id candidate_id candidate_name : String)
    (question_set : List Question) (now : Rat) : SMState × InterviewSession :=
  let session : InterviewSession :=
    { session_id := session_id
      candidate_id := candidate_id
      candidate_name := candidate_name
      start_time := now
      end_time := none
      status := .active
      total_questions := question_set.length
      current_question_index := 0
      questions := question_set
      answers := []
      current_question := none }
  let st1 : SMState :=
    { st with
        sessions := setKey session_id session st.sessions
        handler_totals := setKey session_id 0 st.handler_totals }
  let st2 := start_next_question st1 session_id now
  (st2, (getKey session_id st2.sessions).getD session)

/-- Model of `SessionManager._finish_session`: mark FINISHED, set the end
timestamp, clear the current question and discard the timer. -/
def finish_session (st : SMState) (session_id : String) (now : Rat) : SMState :=
  match getKey session_id st.sessions with
  | none => st
  | some session =>
    { st with
        sessions := setKey session_id
          { session with
              status := .finished
              end_time := some now
              current_question := none } st.sessions
        timers := delKey session_id st.timers }

/-- Model of `SessionManager.submit_answer`.  Every `raise` of the Python
code happens before any mutation, so the error paths return the store
unchanged next to the error. -/
def submit_answer (st : SMState) (session_id answer_text : String) (now : Rat) :
    SMState × Except String Answer :=
  match getKey session_id st.sessions with
  | none => (st, .error "session not found")
  | some session =>
    if session.status ≠ SessionStatus.active then (st, .error "session is not active")
    else match session.current_question with
    | none => (st, .error "no active question")
    | some current =>
      match getKey session_id st.timers with
      | none => (st, .error "timer not found")
      | some timer =>
        let time_spent := timer.stop now
        let is_timeout := timer.isTimeout now
        let answer : Answer :=
          { question_id := current.question_id
            answer_text := answer_text
            time_spent := time_spent
            is_timeout := is_timeout }
        let session1 :=
          { session with
              answers := session.answers ++ [answer]
              current_question_index := session.current_question_index + 1 }
        let st1 : SMState :=
          { st with
              sessions := setKey session_id session1 st.sessions
              handler_totals := setKey session_id
                ((getKey session_id st.handler_totals).getD 0 + time_spent)
                st.handler_totals }
        let st2 :=
          if session1.total_questions ≤ session1.current_question_index then
            finish_session st1 session_id now
          else
            start_next_question st1 session_id now
        (st2, .ok answer)

/-- Model of `SessionManager.get_current_question`: refresh the stored
current question's `time_remaining` from the live timer (the spec's
`get_time_remaining()` is `max(0, limit - elapsed)`) and return it; `none`
for a non-ACTIVE session; an error for an unknown id. -/
def get_current_question (st : SMState) (session_id : String) (now : Rat) :
    SMState × Except String (Option QuestionProgress) :=
  match getKey session_id st.sessions with
  | none => (st, .error "session not found")
  | some session =>
    if session.status ≠ SessionStatus.active then (st, .ok none)
    else match session.current_question, getKey session_id st.timers with
    | some current, some timer =>
      let current1 := { current with time_remaining := pymax 0 (timer.limit - (now - timer.started)) }
      let session1 := { session with current_question := some current1 }
      ({ st with sessions := setKey session_id session1 st.sessions }, .ok (some current1))
    | cq, _ => (st, .ok cq)

/-- Model of `SessionManager.get_session_status`: like
`get_current_question` it refreshes `time_remaining` for an ACTIVE session
with a live timer, and returns the whole session. -/
def get_session_status (st : SMState) (session_id : String) (now : Rat) :
    SMState × Except String InterviewSession :=
  match getKey session_id st.sessions with
  | none => (st, .error "session not found")
  | some session =>
    if session.status = SessionStatus.active then
      match session.current_question, getKey session_id st.timers with
      | some current, some timer =>
        let current1 := { current with time_remaining := pymax 0 (timer.limit - (now - timer.started)) }
        let session1 := { session with current_question := some current1 }
        ({ st with sessions := setKey session_id session1 st.sessions }, .ok session1)
      | _, _ => (st, .ok session)
    else (st, .ok session)

/-- Model of `SessionManager.get_session_summary`: a pure read. -/
def get_session_summary (st : SMState) (session_id : String) :
    Except String SessionSummary :=
  match getKey session_id st.sessions with
  | none => .error "session not found"
  | some session =>
    .ok
      { session_id := session.session_id
        candidate_name := session.candidate_name
        total_questions := session.total_questions
        answered_questions := session.answers.length
        total_time_spent := (getKey session_id st.handler_totals).getD 0
        status := session.status
        answers := session.answers }

end AIHR

namespace AIHR

/-! ## Claim-side per-answer scoring formulas -/

/-- The per-answer knowledge score as the spec states it: exactly 0 for an
empty or timed-out answer; otherwise the whole-word case-insensitive
topic-coverage base `matches / expected_count * 100` (50 when the question
has no expected topics) plus 5 per technical-vocabulary keyword present,
capped at 100. -/
def specAnswerKnowledge (questions : List Question) (a : Answer) : Rat :=
  if a.answer_text = "" ∨ a.is_timeout then 0
  else
    let expected := match qLookup questions a.question_id with
      | some q => q.expected_topics
      | none => []
    let lowText := strLower a.answer_text
    let topicMatches : Nat :=
      (expected.filter (fun topic => wholeWordMatch lowText (strLower topic))).length
    let base : Rat :=
      if expected.isEmpty then 50
      else ((topicMatches : Rat) / (expected.length : Rat)) * 100
    let bonus : Rat :=
      5 * ((technical_keywords.filter (fun word => containsStr lowText word)).length : Rat)
    pymin 100 (base + bonus)

/-- The per-answer problem-solving value as the spec states it: for
CASE-type questions the topic base plus 10 per strategic-language marker,
capped at 100; for other questions 0.8 times the per-answer knowledge
score. -/
def specAnswerPS (questions : List Question) (a : Answer) : Rat :=
  let q_data := qLookup questions a.question_id
  let is_case := match q_data with
    | some q => q.type == "case"
    | none => false
  if is_case then
    let expected := match q_data with
      | some q => q.expected_topics
      | none => []
    let lowText := strLower a.answer_text
    let topicMatches : Nat :=
      (expected.filter (fun topic => wholeWordMatch lowText (strLower topic))).length
    let base : Rat :=
      if expected.isEmpty then 50
      else ((topicMatches : Rat) / (expected.length : Rat)) * 100
    pymin 100 (base + 10 * ((ps_markers.filter (fun m => containsStr lowText m)).length : Rat))
  else specAnswerKnowledge questions a * 0.8

/-- The empty/timeout guard of the scoring loop, as a predicate on answers:
`True` exactly when the loop scores the answer in full. -/
def keptAnswer (a : Answer) : Bool := !(a.answer_text == "" || a.is_timeout)

lemma scoreLists_fst (questions : List Question) :
    ∀ answers : List Answer,
      (scoreLists questions answers).1 = answers.map (specAnswerKnowledge questions)
  | [] => rfl
  | a :: rest => by
    by_cases h : a.answer_text = "" ∨ a.is_timeout
    · simp only [scoreLists, specAnswerKnowledge, List.map, if_pos h,
        scoreLists_fst questions rest]
    · simp only [scoreLists, specAnswerKnowledge, List.map, if_neg h,
        scoreLists_fst questions rest]

lemma keptAnswer_iff (a : Answer) :
    keptAnswer a = true ↔ ¬(a.answer_text = "" ∨ a.is_timeout) := by
  simp [keptAnswer]

lemma scoreLists_snd (questions : List Question) :
    ∀ answers : List Answer,
      (scoreLists questions answers).2 =
        (answers.filter keptAnswer).map (specAnswerPS questions)
  | [] => rfl
  | a :: rest => by
    by_cases h : a.answer_text = "" ∨ a.is_timeout
    · have hk : keptAnswer a = false := by
        simp [keptAnswer]
        tauto
      simp only [scoreLists, if_pos h, List.filter_cons, hk, Bool.false_eq_true, if_false,
        scoreLists_snd questions rest]
    · have hk : keptAnswer a = true := (keptAnswer_iff a).mpr h
      push_neg at h
      simp only [scoreLists, if_neg (by tauto : ¬(a.answer_text = "" ∨ a.is_timeout)),
        List.filter_cons, hk, if_true, List.map, scoreLists_snd questions rest,
        specAnswerPS, specAnswerKnowledge]

end AIHR

namespace AIHR

/-! ## Elementary bounds -/

lemma pymin_le_left (a b : Rat) : pymin a b ≤ a := by
  unfold pymin
  split
  · exact le_refl a
  · linarith

lemma pymin_nonneg {a b : Rat} (ha : 0 ≤ a) (hb : 0 ≤ b) : 0 ≤ pymin a b := by
  unfold pymin
  split
  · exact ha
  · exact hb

lemma pymax_le_right {a b : Rat} (h : a ≤ b) : pymax a b = b := by
  unfold pymax
  split
  · linarith
  · rfl

lemma specAnswerKnowledge_nonneg (questions : List Question) (a : Answer) :
    0 ≤ specAnswerKnowledge questions a := by
  unfold specAnswerKnowledge
  split
  · exact le_refl 0
  · apply pymin_nonneg (by norm_num)
    have hbase : (0:Rat) ≤
        (if (match qLookup questions a.question_id with
              | some q => q.expected_topics
              | none => []).isEmpty then (50:Rat)
         else ((((match qLookup questions a.question_id with
              | some q => q.expected_topics
              | none => []).filter
                (fun topic => wholeWordMatch (strLower a.answer_text) (strLower topic))).length : Rat) /
            ((match qLookup questions a.question_id with
              | some q => q.expected_topics
              | none => []).length : Rat)) * 100) := by
      split
      · norm_num
      · positivity
    have hbonus : (0:Rat) ≤
        5 * ((technical_keywords.filter
          (fun word => containsStr (strLower a.answer_text) word)).length : Rat) := by
      positivity
    linarith

lemma specAnswerKnowledge_le_100 (questions : List Question) (a : Answer) :
    specAnswerKnowledge questions a ≤ 100 := by
  unfold specAnswerKnowledge
  split
  · norm_num
  · exact pymin_le_left 100 _

lemma specAnswerPS_nonneg (questions : List Question) (a : Answer) :
    0 ≤ specAnswerPS questions a := by
  simp only [specAnswerPS]
  split
  · apply pymin_nonneg (by norm_num)
    have hbase : (0:Rat) ≤
        (if (match qLookup questions a.question_id with
              | some q => q.expected_topics
              | none => []).isEmpty then (50:Rat)
         else ((((match qLookup questions a.question_id with
              | some q => q.expected_topics
              | none => []).filter
                (fun topic => wholeWordMatch (strLower a.answer_text) (strLower topic))).length : Rat) /
            ((match qLookup questions a.question_id with
              | some q => q.expected_topics
              | none => []).length : Rat)) * 100) := by
      split
      · norm_num
      · positivity
    have hmark : (0:Rat) ≤
        10 * ((ps_markers.filter
          (fun m => containsStr (strLower a.answer_text) m)).length : Rat) := by
      positivity
    linarith
  · have h := specAnswerKnowledge_nonneg questions a
    exact mul_nonneg h (by norm_num)

lemma specAnswerPS_le_100 (questions : List Question) (a : Answer) :
    specAnswerPS questions a ≤ 100 := by
  simp only [specAnswerPS]
  split
  · exact pymin_le_left 100 _
  · have h := specAnswerKnowledge_le_100 questions a
    calc specAnswerKnowledge questions a * 0.8 ≤ 100 * 0.8 :=
          mul_le_mul_of_nonneg_right h (by norm_num)
    _ ≤ 100 := by norm_num

lemma meanList_nonneg {l : List Rat} (h : ∀ x ∈ l, 0 ≤ x) : 0 ≤ meanList l := by
  unfold meanList
  split
  · exact le_refl 0
  · have hsum : 0 ≤ l.sum := List.sum_nonneg h
    positivity

lemma meanList_le {l : List Rat} {B : Rat} (hB : 0 ≤ B) (h : ∀ x ∈ l, x ≤ B) :
    meanList l ≤ B := by
  unfold meanList
  split
  · exact hB
  · rename_i hne
    have hlen : 0 < (l.length : Rat) := by
      have : l ≠ [] := by
        intro habs
        simp [habs] at hne
      have : 0 < l.length := List.length_pos.mpr this
      exact_mod_cast this
    rw [div_le_iff₀ hlen]
    have := List.sum_le_card_nsmul l B h
    calc l.sum ≤ l.length • B := this
    _ = (l.length : Rat) * B := by rw [nsmul_eq_mul]
    _ = B * (l.length : Rat) := by ring

/-! ## Rounding -/

lemma rndHalfEven_eq_floor_or_succ (x : Rat) :
    rndHalfEven x = ⌊x⌋ ∨ rndHalfEven x = ⌊x⌋ + 1 := by
  simp only [rndHalfEven]
  split
  · exact Or.inl rfl
  · split
    · exact Or.inr rfl
    · split
      · exact Or.inl rfl
      · exact Or.inr rfl

lemma rndHalfEven_nonneg {x : Rat} (h : 0 ≤ x) : 0 ≤ rndHalfEven x := by
  have hf : 0 ≤ ⌊x⌋ := Int.floor_nonneg.mpr h
  rcases rndHalfEven_eq_floor_or_succ x with he | he <;> rw [he] <;> omega

lemma rndHalfEven_le_int {x : Rat} {n : ℤ} (h : x ≤ (n : Rat)) : rndHalfEven x ≤ n := by
  have hfl : ⌊x⌋ ≤ n := by
    calc ⌊x⌋ ≤ ⌊(n : Rat)⌋ := Int.floor_le_floor h
    _ = n := Int.floor_intCast n
  simp only [rndHalfEven]
  split
  · exact hfl
  · rename_i h1
    push_neg at h1
    have hlt : (⌊x⌋ : Rat) < (n : Rat) := by linarith
    have hfn : ⌊x⌋ < n := by exact_mod_cast hlt
    split
    · omega
    · split <;> omega

lemma round2_nonneg {x : Rat} (h : 0 ≤ x) : 0 ≤ round2 x := by
  unfold round2
  have h1 : 0 ≤ rndHalfEven (x * 100) := rndHalfEven_nonneg (by linarith)
  have h2 : (0:Rat) ≤ (rndHalfEven (x * 100) : Rat) := by exact_mod_cast h1
  positivity

lemma round2_le_100 {x : Rat} (h : x ≤ 100) : round2 x ≤ 100 := by
  unfold round2
  rw [div_le_iff₀ (by norm_num : (0:Rat) < 100)]
  have h1 : rndHalfEven (x * 100) ≤ (10000 : ℤ) := by
    apply rndHalfEven_le_int
    push_cast
    linarith
  calc ((rndHalfEven (x * 100) : Rat)) ≤ ((10000 : ℤ) : Rat) := by exact_mod_cast h1
  _ = 100 * 100 := by norm_num

lemma round2_hundredth (x : Rat) : ∃ n : ℤ, round2 x * 100 = (n : Rat) := by
  refine ⟨rndHalfEven (x * 100), ?_⟩
  unfold round2
  field_simp

end AIHR

namespace AIHR

/-! ## Claim C6: knowledge sub-score -/

/-- C6: the session knowledge sub-score returned by
`calculate_technical_scores` is the arithmetic mean, over all answers of the
summary (0 when there are none), of the per-answer knowledge value: exactly
0 for an empty or timed-out answer, otherwise the whole-word
case-insensitive topic-coverage base (50 when the question has no expected
topics) plus 5 per technical-vocabulary keyword present, capped at 100. -/
theorem knowledge_is_mean_of_per_answer_scores (summary : SessionSummary)
    (questions : List Question) :
    (calculate_technical_scores summary questions).knowledge =
      meanList (summary.answers.map (specAnswerKnowledge questions)) := by
  simp only [calculate_technical_scores]
  rw [scoreLists_fst]

/-! ## Claim C2: problem-solving sub-score -/

/-- A two-question set — one CASE question, one THEORY question, neither
with expected topics — used to separate the two readings of the
problem-solving mean. -/
def psMixQuestions : List Question :=
  [⟨1, "python", "easy", "case", "q1", []⟩, ⟨2, "python", "easy", "theory", "q2", []⟩]

/-- One scored CASE answer containing the marker "solution", and one empty
THEORY answer. -/
def psMixAnswers : List Answer :=
  [⟨1, "solution", 10, false⟩, ⟨2, "", 5, false⟩]

/-- Summary holding the two answers above. -/
def psMixSummary : SessionSummary :=
  ⟨"s1", "Alice", 2, 2, 15, .finished, psMixAnswers⟩

/-- C2, counterexample: on a summary with one scored CASE answer (per-answer
problem-solving value 60) and one empty THEORY answer (per-answer value 0),
the engine returns 60 — the mean over the scored answers only — while the
mean over all answers, as the claim states it, is 30. -/
theorem problem_solving_mean_counterexample :
    (calculate_technical_scores psMixSummary psMixQuestions).problem_solving = 60 ∧
    meanList (psMixSummary.answers.map (specAnswerPS psMixQuestions)) = 30 ∧
    (calculate_technical_scores psMixSummary psMixQuestions).problem_solving ≠
      meanList (psMixSummary.answers.map (specAnswerPS psMixQuestions)) := by
  have h2 : (ps_markers.filter (fun m => containsStr (strLower "solution") m)).length = 1 := by
    decide
  have hengine :
      (calculate_technical_scores psMixSummary psMixQuestions).problem_solving = 60 := by
    have h1 : (technical_keywords.filter
        (fun w => containsStr (strLower "solution") w)).length = 0 := by decide
    have hs : scoreLists psMixQuestions psMixAnswers = ([50, 0], [60]) := by
      simp +decide only [scoreLists, qLookup, psMixQuestions, psMixAnswers, h1, h2]
      norm_num [pymin]
    have hm : psMixSummary.answers = psMixAnswers := rfl
    simp only [calculate_technical_scores, hm, hs]
    norm_num [meanList]
  have hclaim : meanList (psMixSummary.answers.map (specAnswerPS psMixQuestions)) = 30 := by
    have hps1 : specAnswerPS psMixQuestions ⟨1, "solution", 10, false⟩ = 60 := by
      simp +decide only [specAnswerPS, qLookup, psMixQuestions, h2]
      norm_num [pymin]
    have hps2 : specAnswerPS psMixQuestions ⟨2, "", 5, false⟩ = 0 := by
      simp +decide only [specAnswerPS, specAnswerKnowledge, qLookup, psMixQuestions]
      norm_num
    have hm : psMixSummary.answers = psMixAnswers := rfl
    simp only [hm, psMixAnswers, List.map, hps1, hps2]
    norm_num [meanList]
  exact ⟨hengine, hclaim, by rw [hengine, hclaim]; norm_num⟩

/-- C2, amended: the problem-solving sub-score returned by
`calculate_technical_scores` is the arithmetic mean of the per-answer
problem-solving values (CASE: topic base plus 10 per strategic marker capped
at 100; otherwise 0.8 times the per-answer knowledge score) taken over the
non-empty, non-timed-out answers only, and 0 when there are none. -/
theorem problem_solving_is_mean_over_scored_answers (summary : SessionSummary)
    (questions : List Question) :
    (calculate_technical_scores summary questions).problem_solving =
      meanList ((summary.answers.filter keptAnswer).map (specAnswerPS questions)) := by
  simp only [calculate_technical_scores]
  rw [scoreLists_snd]

end AIHR

namespace AIHR

/-! ## Claim C3: aggregate sub-scores lie in [0, 100] -/

lemma aggregate_knowledge_eq (summary : SessionSummary) (report : FullIntegrityReport)
    (questions : List Question) :
    (aggregate summary report questions).knowledge_score =
      round2 ((calculate_technical_scores summary questions).knowledge) := rfl

lemma aggregate_honesty_eq (summary : SessionSummary) (report : FullIntegrityReport)
    (questions : List Question) :
    (aggregate summary report questions).honesty_score =
      round2 (report.overall_honesty_score * 100) := rfl

lemma aggregate_time_eq (summary : SessionSummary) (report : FullIntegrityReport)
    (questions : List Question) :
    (aggregate summary report questions).time_behavior_score =
      round2 (if (timeScoresOf report).isEmpty then 50
        else (timeScoresOf report).sum / ((timeScoresOf report).length : Rat)) := rfl

lemma aggregate_ps_eq (summary : SessionSummary) (report : FullIntegrityReport)
    (questions : List Question) :
    (aggregate summary report questions).problem_solving_score =
      round2 ((calculate_technical_scores summary questions).problem_solving) := rfl

lemma mem_timeFold {l : List AnswerReport} {x : Rat}
    (hx : x ∈ l.foldr (fun ar acc =>
      ((ar.analysis_results.filter (fun res => res.type == "time_behavior")).map
        (fun res => res.score * 100)) ++ acc) []) :
    ∃ ar ∈ l, ∃ res ∈ ar.analysis_results, x = res.score * 100 := by
  induction l with
  | nil => simp at hx
  | cons ar rest ih =>
    simp only [List.foldr_cons, List.mem_append] at hx
    rcases hx with hx | hx
    · rcases List.mem_map.mp hx with ⟨res, hres, hval⟩
      exact ⟨ar, List.mem_cons_self ar rest, res, List.mem_of_mem_filter hres, hval.symm⟩
    · rcases ih hx with ⟨ar1, har1, res, hres, hval⟩
      exact ⟨ar1, List.mem_cons_of_mem ar har1, res, hres, hval⟩

lemma mem_timeScoresOf {r : FullIntegrityReport} {x : Rat} (hx : x ∈ timeScoresOf r) :
    ∃ ar ∈ r.answer_reports, ∃ res ∈ ar.analysis_results, x = res.score * 100 :=
  mem_timeFold hx

lemma validB_honesty {r : FullIntegrityReport} (h : r.validB = true) :
    0 ≤ r.overall_honesty_score ∧ r.overall_honesty_score ≤ 1 := by
  unfold FullIntegrityReport.validB at h
  simp only [Bool.and_eq_true, decide_eq_true_eq] at h
  exact ⟨h.1.1, h.1.2⟩

lemma validB_results {r : FullIntegrityReport} (h : r.validB = true) :
    ∀ ar ∈ r.answer_reports, ∀ res ∈ ar.analysis_results,
      0 ≤ res.score ∧ res.score ≤ 1 := by
  unfold FullIntegrityReport.validB at h
  simp only [Bool.and_eq_true, decide_eq_true_eq, List.all_eq_true] at h
  intro ar har res hres
  exact h.2 ar har res hres

lemma knowledge_mean_bounds (summary : SessionSummary) (questions : List Question) :
    0 ≤ (calculate_technical_scores summary questions).knowledge ∧
      (calculate_technical_scores summary questions).knowledge ≤ 100 := by
  rw [knowledge_is_mean_of_per_answer_scores]
  constructor
  · apply meanList_nonneg
    intro x hx
    rcases List.mem_map.mp hx with ⟨a, _, rfl⟩
    exact specAnswerKnowledge_nonneg questions a
  · apply meanList_le (by norm_num)
    intro x hx
    rcases List.mem_map.mp hx with ⟨a, _, rfl⟩
    exact specAnswerKnowledge_le_100 questions a

lemma ps_mean_bounds (summary : SessionSummary) (questions : List Question) :
    0 ≤ (calculate_technical_scores summary questions).problem_solving ∧
      (calculate_technical_scores summary questions).problem_solving ≤ 100 := by
  rw [problem_solving_is_mean_over_scored_answers]
  constructor
  · apply meanList_nonneg
    intro x hx
    rcases List.mem_map.mp hx with ⟨a, _, rfl⟩
    exact specAnswerPS_nonneg questions a
  · apply meanList_le (by norm_num)
    intro x hx
    rcases List.mem_map.mp hx with ⟨a, _, rfl⟩
    exact specAnswerPS_le_100 questions a

/-- C3: for every summary, every integrity report whose honesty and
analysis scores are valid fractions in [0, 1], and every question list, each
of the four sub-scores of the ScoreBreakdown returned by `aggregate` lies in
[0, 100]. -/
theorem aggregate_subscores_in_range (summary : SessionSummary)
    (report : FullIntegrityReport) (questions : List Question)
    (hv : report.validB = true) :
    (0 ≤ (aggregate summary report questions).knowledge_score ∧
      (aggregate summary report questions).knowledge_score ≤ 100) ∧
    (0 ≤ (aggregate summary report questions).honesty_score ∧
      (aggregate summary report questions).honesty_score ≤ 100) ∧
    (0 ≤ (aggregate summary report questions).time_behavior_score ∧
      (aggregate summary report questions).time_behavior_score ≤ 100) ∧
    (0 ≤ (aggregate summary report questions).problem_solving_score ∧
      (aggregate summary report questions).problem_solving_score ≤ 100) := by
  refine ⟨?_, ?_, ?_, ?_⟩
  · rw [aggregate_knowledge_eq]
    have h := knowledge_mean_bounds summary questions
    exact ⟨round2_nonneg h.1, round2_le_100 h.2⟩
  · rw [aggregate_honesty_eq]
    have h := validB_honesty hv
    constructor
    · exact round2_nonneg (by nlinarith [h.1])
    · exact round2_le_100 (by nlinarith [h.2])
  · rw [aggregate_time_eq]
    have hbounds : ∀ x ∈ timeScoresOf report, 0 ≤ x ∧ x ≤ 100 := by
      intro x hx
      rcases mem_timeScoresOf hx with ⟨ar, har, res, hres, rfl⟩
      have h := validB_results hv ar har res hres
      constructor
      · nlinarith [h.1]
      · nlinarith [h.2]
    by_cases he : (timeScoresOf report).isEmpty
    · rw [if_pos he]
      exact ⟨round2_nonneg (by norm_num), round2_le_100 (by norm_num)⟩
    · rw [if_neg he]
      have hmean : (timeScoresOf report).sum / ((timeScoresOf report).length : Rat) =
          meanList (timeScoresOf report) := by
        unfold meanList
        rw [if_neg he]
      rw [hmean]
      constructor
      · exact round2_nonneg (meanList_nonneg (fun x hx => (hbounds x hx).1))
      · exact round2_le_100 (meanList_le (by norm_num) (fun x hx => (hbounds x hx).2))
  · rw [aggregate_ps_eq]
    have h := ps_mean_bounds summary questions
    exact ⟨round2_nonneg h.1, round2_le_100 h.2⟩

/-- A tiny valid integrity report: no per-answer reports, overall honesty
score 1. -/
def unitReport : FullIntegrityReport := ⟨[], 1⟩

/-- Witness for C3: the bounds hold at a concrete summary, report, and
question list. -/
theorem aggregate_subscores_in_range_witness :
    unitReport.validB = true ∧
    ((0 ≤ (aggregate psMixSummary unitReport psMixQuestions).knowledge_score ∧
      (aggregate psMixSummary unitReport psMixQuestions).knowledge_score ≤ 100) ∧
    (0 ≤ (aggregate psMixSummary unitReport psMixQuestions).honesty_score ∧
      (aggregate psMixSummary unitReport psMixQuestions).honesty_score ≤ 100) ∧
    (0 ≤ (aggregate psMixSummary unitReport psMixQuestions).time_behavior_score ∧
      (aggregate psMixSummary unitReport psMixQuestions).time_behavior_score ≤ 100) ∧
    (0 ≤ (aggregate psMixSummary unitReport psMixQuestions).problem_solving_score ∧
      (aggregate psMixSummary unitReport psMixQuestions).problem_solving_score ≤ 100)) :=
  ⟨by decide, aggregate_subscores_in_range psMixSummary unitReport psMixQuestions (by decide)⟩

end AIHR

namespace AIHR

/-! ## Claim C7: neutral time-behavior default and 2-decimal rounding -/

lemma timeFold_eq_nil : ∀ {l : List AnswerReport},
    (∀ ar ∈ l, ∀ res ∈ ar.analysis_results, res.type ≠ "time_behavior") →
    l.foldr (fun ar acc =>
      ((ar.analysis_results.filter (fun res => res.type == "time_behavior")).map
        (fun res => res.score * 100)) ++ acc) [] = []
  | [], _ => rfl
  | ar :: rest, h => by
    simp only [List.foldr_cons]
    have hfilter : ar.analysis_results.filter (fun res => res.type == "time_behavior") = [] := by
      apply List.filter_eq_nil_iff.mpr
      intro res hres
      simp only [beq_iff_eq]
      exact h ar (List.mem_cons_self ar rest) res hres
    rw [hfilter]
    simp only [List.map_nil, List.nil_append]
    exact timeFold_eq_nil (fun ar1 har1 => h ar1 (List.mem_cons_of_mem ar har1))

lemma timeScoresOf_eq_nil {r : FullIntegrityReport}
    (h : ∀ ar ∈ r.answer_reports, ∀ res ∈ ar.analysis_results,
      res.type ≠ "time_behavior") :
    timeScoresOf r = [] :=
  timeFold_eq_nil h

lemma round2_fifty : round2 50 = 50 := by
  unfold round2 rndHalfEven
  norm_num

/-- C7: when the integrity report carries no analysis result of type
"time_behavior", the time-behavior sub-score returned by `aggregate` is
exactly 50; and each of the four returned sub-scores is a whole number of
hundredths (rounded to 2 decimal places). -/
theorem aggregate_time_default_and_two_decimals (summary : SessionSummary)
    (report : FullIntegrityReport) (questions : List Question)
    (h : ∀ ar ∈ report.answer_reports, ∀ res ∈ ar.analysis_results,
      res.type ≠ "time_behavior") :
    (aggregate summary report questions).time_behavior_score = 50 ∧
    (∃ n : ℤ, (aggregate summary report questions).knowledge_score * 100 = (n : Rat)) ∧
    (∃ n : ℤ, (aggregate summary report questions).honesty_score * 100 = (n : Rat)) ∧
    (∃ n : ℤ, (aggregate summary report questions).time_behavior_score * 100 = (n : Rat)) ∧
    (∃ n : ℤ, (aggregate summary report questions).problem_solving_score * 100 = (n : Rat)) := by
  refine ⟨?_, ?_, ?_, ?_, ?_⟩
  · rw [aggregate_time_eq, timeScoresOf_eq_nil h]
    simp only [List.isEmpty_nil, if_true]
    exact round2_fifty
  · rw [aggregate_knowledge_eq]
    exact round2_hundredth _
  · rw [aggregate_honesty_eq]
    exact round2_hundredth _
  · rw [aggregate_time_eq]
    exact round2_hundredth _
  · rw [aggregate_ps_eq]
    exact round2_hundredth _

/-- Witness for C7: the default and the rounding at a concrete summary,
report with no time-behavior results, and question list. -/
theorem aggregate_time_default_witness :
    (aggregate psMixSummary unitReport psMixQuestions).time_behavior_score = 50 ∧
    (∃ n : ℤ, (aggregate psMixSummary unitReport psMixQuestions).knowledge_score * 100 = (n : Rat)) ∧
    (∃ n : ℤ, (aggregate psMixSummary unitReport psMixQuestions).honesty_score * 100 = (n : Rat)) ∧
    (∃ n : ℤ, (aggregate psMixSummary unitReport psMixQuestions).time_behavior_score * 100 = (n : Rat)) ∧
    (∃ n : ℤ, (aggregate psMixSummary unitReport psMixQuestions).problem_solving_score * 100 = (n : Rat)) :=
  aggregate_time_default_and_two_decimals psMixSummary unitReport psMixQuestions
    (by intro ar har; simp [unitReport] at har)

end AIHR

namespace AIHR

/-! ## Claim C8: final weighted score -/

/-- C8: for every weight table, every difficulty-mix key that the table
supports with four non-negative weights summing to 1, and every
ScoreBreakdown whose sub-scores lie in [0, 100],
`calculate_final_weighted_score` returns exactly the rounded weighted sum,
an integer in [0, 100]. -/
theorem final_weighted_score_in_range (table : List (String × Weights))
    (breakdown : ScoreBreakdown) (difficulty_mix : String) (w : Weights)
    (hw : get_weights table difficulty_mix = some w)
    (hwk : 0 ≤ w.knowledge) (hwh : 0 ≤ w.honesty) (hwt : 0 ≤ w.time)
    (hwp : 0 ≤ w.problem_solving)
    (hsum : w.knowledge + w.honesty + w.time + w.problem_solving = 1)
    (hbk : 0 ≤ breakdown.knowledge_score ∧ breakdown.knowledge_score ≤ 100)
    (hbh : 0 ≤ breakdown.honesty_score ∧ breakdown.honesty_score ≤ 100)
    (hbt : 0 ≤ breakdown.time_behavior_score ∧ breakdown.time_behavior_score ≤ 100)
    (hbp : 0 ≤ breakdown.problem_solving_score ∧ breakdown.problem_solving_score ≤ 100) :
    ∃ r : ℤ, calculate_final_weighted_score table breakdown difficulty_mix = .ok r ∧
      r = rndHalfEven
        (breakdown.knowledge_score * w.knowledge +
          breakdown.honesty_score * w.honesty +
          breakdown.time_behavior_score * w.time +
          breakdown.problem_solving_score * w.problem_solving) ∧
      0 ≤ r ∧ r ≤ 100 := by
  have hfinal :
      calculate_final_weighted_score table breakdown difficulty_mix =
        .ok (rndHalfEven
          (breakdown.knowledge_score * w.knowledge +
            breakdown.honesty_score * w.honesty +
            breakdown.time_behavior_score * w.time +
            breakdown.problem_solving_score * w.problem_solving)) := by
    unfold calculate_final_weighted_score
    rw [hw]
  refine ⟨_, hfinal, rfl, ?_, ?_⟩
  · apply rndHalfEven_nonneg
    have h1 := mul_nonneg hbk.1 hwk
    have h2 := mul_nonneg hbh.1 hwh
    have h3 := mul_nonneg hbt.1 hwt
    have h4 := mul_nonneg hbp.1 hwp
    linarith
  · apply rndHalfEven_le_int
    have h1 := mul_le_mul_of_nonneg_right hbk.2 hwk
    have h2 := mul_le_mul_of_nonneg_right hbh.2 hwh
    have h3 := mul_le_mul_of_nonneg_right hbt.2 hwt
    have h4 := mul_le_mul_of_nonneg_right hbp.2 hwp
    push_cast
    nlinarith [hsum]

/-- A one-entry weight table putting all the weight on knowledge. -/
def unitTable : List (String × Weights) := [("medium", ⟨1, 0, 0, 0⟩)]

/-- A concrete in-range breakdown. -/
def unitBreakdown : ScoreBreakdown := ⟨40, 100, 50, 0⟩

/-- Witness for C8: the weighted score exists and is in range at a concrete
table, breakdown, and mix key. -/
theorem final_weighted_score_in_range_witness :
    ∃ r : ℤ, calculate_final_weighted_score unitTable unitBreakdown "medium" = .ok r ∧
      r = rndHalfEven
        (unitBreakdown.knowledge_score * (1 : Rat) +
          unitBreakdown.honesty_score * 0 +
          unitBreakdown.time_behavior_score * 0 +
          unitBreakdown.problem_solving_score * 0) ∧
      0 ≤ r ∧ r ≤ 100 :=
  final_weighted_score_in_range unitTable unitBreakdown "medium" ⟨1, 0, 0, 0⟩
    (by decide) (by norm_num) (by norm_num) (by norm_num) (by norm_num) (by norm_num)
    (by constructor <;> norm_num [unitBreakdown]) (by constructor <;> norm_num [unitBreakdown])
    (by constructor <;> norm_num [unitBreakdown]) (by constructor <;> norm_num [unitBreakdown])

end AIHR

namespace AIHR

/-! ## Store lemmas -/

lemma getKey_setKey_self {α : Type} (k : String) (v : α) (l : List (String × α)) :
    getKey k (setKey k v l) = some v := by
  simp [getKey, setKey, List.find?]

lemma all_setKey {α : Type} (P : String × α → Bool) {l : List (String × α)}
    {k : String} {v : α} (hl : l.all P = true) (hv : P (k, v) = true) :
    ((setKey k v l).all P) = true := by
  simp only [setKey, List.all_cons, hv, Bool.true_and]
  rw [List.all_eq_true] at hl ⊢
  intro x hx
  exact hl x (List.mem_of_mem_filter hx)

lemma all_delKey {α : Type} (P : String × α → Bool) {l : List (String × α)}
    {k : String} (hl : l.all P = true) : ((delKey k l).all P) = true := by
  rw [List.all_eq_true] at hl ⊢
  intro x hx
  exact hl x (List.mem_of_mem_filter hx)

lemma getKey_some_mem {α : Type} {k : String} {l : List (String × α)} {v : α}
    (h : getKey k l = some v) : ∃ p ∈ l, p.2 = v := by
  unfold getKey at h
  cases hf : l.find? (fun p => p.1 == k) with
  | none => rw [hf] at h; simp at h
  | some p =>
    rw [hf] at h
    simp at h
    exact ⟨p, List.mem_of_find?_eq_some hf, h⟩

/-- The empty store of a freshly constructed `SessionManager`. -/
def emptyState : SMState := ⟨[], [], []⟩

/-! ## Claim C1: create_session on an empty question list -/

/-- C1, counterexample: creating a session from the empty ordered question
list does not fail with a validation error — at this concrete input the
session is stored and returned, and its status is ACTIVE. -/
theorem create_session_empty_counterexample :
    ((create_session emptyState "sid-1" "cand-1" "Alice" [] 0).2).status =
      SessionStatus.active ∧
    getKey "sid-1" ((create_session emptyState "sid-1" "cand-1" "Alice" [] 0).1).sessions =
      some (create_session emptyState "sid-1" "cand-1" "Alice" [] 0).2 := by
  decide

/-- C1, amended: for every store, candidate id and candidate name,
`create_session` with an empty ordered question list succeeds: it stores and
returns a session with status ACTIVE, zero total questions, no current
question, and no answers (no validation error is raised). -/
theorem create_session_empty_questions (st : SMState) (sid cid name : String) (now : Rat) :
    ((create_session st sid cid name [] now).2).status = SessionStatus.active ∧
    ((create_session st sid cid name [] now).2).total_questions = 0 ∧
    ((create_session st sid cid name [] now).2).current_question = none ∧
    ((create_session st sid cid name [] now).2).answers = [] ∧
    getKey sid ((create_session st sid cid name [] now).1).sessions =
      some (create_session st sid cid name [] now).2 := by
  simp [create_session, start_next_question, getKey_setKey_self]

/-! ## Claim C4: submit_answer on an unknown or finished session -/

/-- C4: `submit_answer` on an unknown session id, or on a session whose
status is FINISHED, returns an error and leaves the whole store — every
field of every stored session — unchanged. -/
theorem submit_answer_unknown_or_finished (st : SMState) (sid text : String) (now : Rat)
    (h : getKey sid st.sessions = none ∨
      ∃ s, getKey sid st.sessions = some s ∧ s.status = SessionStatus.finished) :
    (submit_answer st sid text now).1 = st ∧
    ∃ e, (submit_answer st sid text now).2 = Except.error e := by
  rcases h with h | ⟨s, hs, hfin⟩
  · unfold submit_answer
    rw [h]
    exact ⟨rfl, _, rfl⟩
  · have hne : s.status ≠ SessionStatus.active := by
      rw [hfin]
      intro hc
      cases hc
    simp [submit_answer, hs, if_pos hne]

/-- Witness for C4: the unknown-session error path at the empty store. -/
theorem submit_answer_unknown_witness :
    (submit_answer emptyState "sid-x" "an answer" 0).1 = emptyState ∧
    ∃ e, (submit_answer emptyState "sid-x" "an answer" 0).2 = Except.error e :=
  submit_answer_unknown_or_finished emptyState "sid-x" "an answer" 0 (Or.inl (by decide))

end AIHR

namespace AIHR

/-! ## Claim C9: answers length equals current question index -/

/-- The per-session invariant: as many collected answers as the index of the
question currently being served. -/
def sessionOKB (s : InterviewSession) : Bool :=
  s.answers.length == s.current_question_index

/-- The store-wide invariant: every stored session satisfies `sessionOKB`. -/
def storeInvB (st : SMState) : Bool :=
  st.sessions.all (fun p => sessionOKB p.2)

lemma sessionOKB_of_getKey {st : SMState} {k : String} {s : InterviewSession}
    (hinv : storeInvB st = true) (hk : getKey k st.sessions = some s) :
    sessionOKB s = true := by
  rcases getKey_some_mem hk with ⟨p, hp, hpv⟩
  unfold storeInvB at hinv
  rw [List.all_eq_true] at hinv
  have := hinv p hp
  rwa [hpv] at this

lemma storeInv_start_next (st : SMState) (sid : String) (now : Rat)
    (h : storeInvB st = true) :
    storeInvB (start_next_question st sid now) = true := by
  unfold start_next_question
  cases hk : getKey sid st.sessions with
  | none => exact h
  | some session =>
    have hok : sessionOKB session = true := sessionOKB_of_getKey h hk
    dsimp only
    split
    · unfold storeInvB
      apply all_setKey _ h
      exact hok
    · exact h

lemma storeInv_finish (st : SMState) (sid : String) (now : Rat)
    (h : storeInvB st = true) :
    storeInvB (finish_session st sid now) = true := by
  unfold finish_session
  cases hk : getKey sid st.sessions with
  | none => exact h
  | some session =>
    have hok : sessionOKB session = true := sessionOKB_of_getKey h hk
    dsimp only
    unfold storeInvB
    apply all_setKey _ h
    exact hok

lemma storeInv_create (st : SMState) (sid cid name : String) (qs : List Question)
    (now : Rat) (h : storeInvB st = true) :
    storeInvB (create_session st sid cid name qs now).1 = true := by
  unfold create_session
  apply storeInv_start_next
  unfold storeInvB
  apply all_setKey _ h
  rfl

lemma storeInv_submit (st : SMState) (sid text : String) (now : Rat)
    (h : storeInvB st = true) :
    storeInvB (submit_answer st sid text now).1 = true := by
  unfold submit_answer
  cases hk : getKey sid st.sessions with
  | none => exact h
  | some session =>
    have hok : sessionOKB session = true := sessionOKB_of_getKey h hk
    dsimp only
    split
    · exact h
    · cases hq : session.current_question with
      | none => exact h
      | some current =>
        dsimp only
        cases ht : getKey sid st.timers with
        | none => exact h
        | some timer =>
          have hok1 : sessionOKB { session with
              answers := session.answers ++
                [{ question_id := current.question_id, answer_text := text,
                   time_spent := timer.stop now, is_timeout := timer.isTimeout now }]
              current_question_index := session.current_question_index + 1 } = true := by
            unfold sessionOKB at hok ⊢
            simp only [List.length_append, List.length_cons, List.length_nil]
            simp only [beq_iff_eq] at hok ⊢
            omega
          have h1 : storeInvB { st with
              sessions := setKey sid { session with
                answers := session.answers ++
                  [{ question_id := current.question_id, answer_text := text,
                     time_spent := timer.stop now, is_timeout := timer.isTimeout now }]
                current_question_index := session.current_question_index + 1 } st.sessions
              handler_totals := setKey sid
                ((getKey sid st.handler_totals).getD 0 + timer.stop now)
                st.handler_totals } = true := by
            unfold storeInvB
            apply all_setKey _ h
            exact hok1
          dsimp only
          split
          · exact storeInv_finish _ sid now h1
          · exact storeInv_start_next _ sid now h1

lemma storeInv_get_current_question (st : SMState) (sid : String) (now : Rat)
    (h : storeInvB st = true) :
    storeInvB (get_current_question st sid now).1 = true := by
  unfold get_current_question
  cases hk : getKey sid st.sessions with
  | none => exact h
  | some session =>
    have hok : sessionOKB session = true := sessionOKB_of_getKey h hk
    dsimp only
    split
    · exact h
    · split
      · unfold storeInvB
        apply all_setKey _ h
        exact hok
      · exact h

lemma storeInv_get_session_status (st : SMState) (sid : String) (now : Rat)
    (h : storeInvB st = true) :
    storeInvB (get_session_status st sid now).1 = true := by
  unfold get_session_status
  cases hk : getKey sid st.sessions with
  | none => exact h
  | some session =>
    have hok : sessionOKB session = true := sessionOKB_of_getKey h hk
    dsimp only
    split
    · split
      · unfold storeInvB
        apply all_setKey _ h
        exact hok
      · exact h
    · exact h

/-- One public `SessionManager` operation, as a relation between the store
before and the store after the call (`get_session_summary` is a pure read). -/
inductive SMStep : SMState → SMState → Prop where
  | create (st : SMState) (sid cid name : String) (qs : List Question) (now : Rat) :
      SMStep st (create_session st sid cid name qs now).1
  | submit (st : SMState) (sid text : String) (now : Rat) :
      SMStep st (submit_answer st sid text now).1
  | current_question (st : SMState) (sid : String) (now : Rat) :
      SMStep st (get_current_question st sid now).1
  | session_status (st : SMState) (sid : String) (now : Rat) :
      SMStep st (get_session_status st sid now).1
  | session_summary (st : SMState) (sid : String) : SMStep st st

/-- C9: in every stored session the length of the answers list equals the
current question index, and this invariant is preserved by every
SessionManager operation — create_session establishes it for the new
session, submit_answer appends one answer while incrementing the index by
one, and the remaining operations touch neither field. -/
theorem session_answers_match_index (st st' : SMState)
    (hinv : storeInvB st = true) (hstep : SMStep st st') :
    storeInvB st' = true := by
  cases hstep with
  | create sid cid name qs now => exact storeInv_create st sid cid name qs now hinv
  | submit sid text now => exact storeInv_submit st sid text now hinv
  | current_question sid now => exact storeInv_get_current_question st sid now hinv
  | session_status sid now => exact storeInv_get_session_status st sid now hinv
  | session_summary sid => exact hinv

/-- Witness for C9: the invariant holds on the empty store and is carried to
the store produced by a concrete create_session call. -/
theorem session_answers_match_index_witness :
    storeInvB (create_session emptyState "s1" "c1" "Bob" [] 0).1 = true :=
  session_answers_match_index emptyState _ (by decide)
    (SMStep.create emptyState "s1" "c1" "Bob" [] 0)

end AIHR

namespace AIHR

/-! ## Claim C5: an N-question session finishes after N answers -/

/-- Run a sequence of `submit_answer` calls (answer text and call instant)
against one session, threading the store. -/
def runSubmits (st : SMState) (sid : String) : List (String × Rat) → SMState
  | [] => st
  | (text, now) :: rest => runSubmits (submit_answer st sid text now).1 sid rest

/-- Do all the `submit_answer` calls of the sequence succeed? -/
def submitsOkB (st : SMState) (sid : String) : List (String × Rat) → Bool
  | [] => true
  | (text, now) :: rest =>
    match (submit_answer st sid text now).2 with
    | .ok _ => submitsOkB (submit_answer st sid text now).1 sid rest
    | .error _ => false

/-- The session `sid` is stored ACTIVE at question index `k` of `qs`, with a
live timer, a current question, and start timestamp `t0`. -/
def ActiveAt (st : SMState) (sid : String) (qs : List Question) (k : Nat) (t0 : Rat) :
    Prop :=
  ∃ s tm, getKey sid st.sessions = some s ∧ getKey sid st.timers = some tm ∧
    s.status = SessionStatus.active ∧ s.questions = qs ∧
    s.total_questions = qs.length ∧ s.current_question_index = k ∧
    s.start_time = t0 ∧ ∃ qp, s.current_question = some qp

/-- The session `sid` is stored FINISHED with no current question, start
timestamp `t0` and end timestamp `tend`. -/
def FinishedFrom (st : SMState) (sid : String) (t0 tend : Rat) : Prop :=
  ∃ s, getKey sid st.sessions = some s ∧ s.status = SessionStatus.finished ∧
    s.current_question = none ∧ s.end_time = some tend ∧ s.start_time = t0

lemma create_session_active (st : SMState) (sid cid name : String)
    (qs : List Question) (now : Rat) (hne : qs ≠ []) :
    ActiveAt (create_session st sid cid name qs now).1 sid qs 0 now := by
  have hlen : 0 < qs.length := List.length_pos.mpr hne
  unfold ActiveAt
  simp only [create_session, start_next_question, getKey_setKey_self]
  rw [dif_pos hlen]
  refine ⟨_, _, getKey_setKey_self _ _ _, getKey_setKey_self _ _ _,
    rfl, rfl, rfl, rfl, rfl, _, rfl⟩

lemma submit_step {st : SMState} {sid : String} {qs : List Question} {k : Nat}
    {t0 : Rat} (h : ActiveAt st sid qs k t0) (_hk : k < qs.length)
    (text : String) (now : Rat) :
    (∃ a, (submit_answer st sid text now).2 = Except.ok a) ∧
    (k + 1 < qs.length → ActiveAt (submit_answer st sid text now).1 sid qs (k + 1) t0) ∧
    (k + 1 = qs.length → FinishedFrom (submit_answer st sid text now).1 sid t0 now) := by
  obtain ⟨s, tm, hs, htm, hstatus, hqs, htot, hidx, hstart, qp, hq⟩ := h
  have hact : ¬(s.status ≠ SessionStatus.active) := by
    rw [hstatus]
    intro hc
    exact hc rfl
  unfold submit_answer
  rw [hs]
  dsimp only
  rw [if_neg hact, hq]
  dsimp only
  rw [htm]
  dsimp only
  refine ⟨⟨_, rfl⟩, ?_, ?_⟩
  · intro hlt
    have hcond : ¬(s.total_questions ≤ s.current_question_index + 1) := by
      rw [htot, hidx]
      omega
    rw [if_neg hcond]
    unfold start_next_question
    rw [getKey_setKey_self]
    dsimp only
    have hcond2 : s.current_question_index + 1 < s.questions.length := by
      rw [hqs, hidx]
      exact hlt
    rw [dif_pos hcond2]
    refine ⟨_, _, getKey_setKey_self _ _ _, getKey_setKey_self _ _ _, hstatus, hqs, ?_, ?_,
      hstart, _, rfl⟩
    · rw [htot]
    · show s.current_question_index + 1 = k + 1
      rw [hidx]
  · intro heq
    have hcond : s.total_questions ≤ s.current_question_index + 1 := by
      rw [htot, hidx]
      omega
    rw [if_pos hcond]
    unfold finish_session
    rw [getKey_setKey_self]
    dsimp only
    exact ⟨_, getKey_setKey_self _ _ _, rfl, rfl, rfl, hstart⟩

end AIHR

namespace AIHR

lemma run_finishes {sid : String} {qs : List Question} {t0 : Rat} :
    ∀ (inputs : List (String × Rat)) (st : SMState) (k : Nat),
      ActiveAt st sid qs k t0 → inputs.length + k = qs.length → inputs ≠ [] →
      (∀ x ∈ inputs, t0 ≤ x.2) →
      submitsOkB st sid inputs = true ∧
      ∃ tend, t0 ≤ tend ∧ FinishedFrom (runSubmits st sid inputs) sid t0 tend
  | [], _, _, _, _, hne, _ => absurd rfl hne
  | (text, now) :: rest, st, k, hact, hlen, _, hmono => by
    have hk : k < qs.length := by
      simp only [List.length_cons] at hlen
      omega
    obtain ⟨⟨a, hok⟩, hnext, hfin⟩ := submit_step hact hk text now
    cases rest with
    | nil =>
      have hkeq : k + 1 = qs.length := by
        simp only [List.length_cons, List.length_nil] at hlen
        omega
      have hf := hfin hkeq
      constructor
      · unfold submitsOkB
        rw [hok]
        rfl
      · exact ⟨now, hmono (text, now) (List.mem_cons_self _ _), hf⟩
    | cons b rest2 =>
      have hlt : k + 1 < qs.length := by
        simp only [List.length_cons] at hlen
        omega
      have hres := run_finishes (b :: rest2) (submit_answer st sid text now).1 (k + 1)
        (hnext hlt)
        (by simp only [List.length_cons] at hlen ⊢; omega)
        (by intro habs; cases habs)
        (fun x hx => hmono x (List.mem_cons_of_mem _ hx))
      constructor
      · unfold submitsOkB
        rw [hok]
        exact hres.1
      · exact hres.2

/-- C5: for every session created, on any store, from a non-empty list of N
questions, N successive `submit_answer` calls (at instants not earlier than
the creation instant) all succeed, and afterwards the stored session has
status FINISHED, no current question, and an end timestamp that is at least
its start timestamp. -/
theorem session_finished_after_all_answers (st : SMState) (sid cid name : String)
    (qs : List Question) (t0 : Rat) (inputs : List (String × Rat))
    (hne : qs ≠ []) (hlen : inputs.length = qs.length)
    (hmono : ∀ x ∈ inputs, t0 ≤ x.2) :
    submitsOkB (create_session st sid cid name qs t0).1 sid inputs = true ∧
    ∃ s, getKey sid
        (runSubmits (create_session st sid cid name qs t0).1 sid inputs).sessions = some s ∧
      s.status = SessionStatus.finished ∧ s.current_question = none ∧
      ∃ tend, s.end_time = some tend ∧ s.start_time = t0 ∧ s.start_time ≤ tend := by
  have hinne : inputs ≠ [] := by
    intro habs
    rw [habs] at hlen
    simp only [List.length_nil] at hlen
    have hq0 : qs.length = 0 := hlen.symm
    exact hne (List.length_eq_zero.mp hq0)
  obtain ⟨hoks, tend, htend, s, hs, hstat, hcq, hend, hstart⟩ :=
    run_finishes inputs (create_session st sid cid name qs t0).1 0
      (create_session_active st sid cid name qs t0 hne) (by omega) hinne hmono
  refine ⟨hoks, s, hs, hstat, hcq, tend, hend, hstart, ?_⟩
  rw [hstart]
  exact htend

/-- A concrete one-question set. -/
def oneQuestion : List Question := [⟨1, "python", "easy", "theory", "q1", []⟩]

/-- Witness for C5: a concrete one-question session, one answer submitted at
instant 5 after creation at instant 0. -/
theorem session_finished_after_all_answers_witness :
    submitsOkB (create_session emptyState "s1" "c1" "Ann" oneQuestion 0).1 "s1"
      [("an answer", 5)] = true ∧
    ∃ s, getKey "s1"
        (runSubmits (create_session emptyState "s1" "c1" "Ann" oneQuestion 0).1 "s1"
          [("an answer", 5)]).sessions = some s ∧
      s.status = SessionStatus.finished ∧ s.current_question = none ∧
      ∃ tend, s.end_time = some tend ∧ s.start_time = 0 ∧ s.start_time ≤ tend :=
  session_finished_after_all_answers emptyState "s1" "c1" "Ann" oneQuestion 0
    [("an answer", 5)] (by intro habs; cases habs) rfl
    (fun x hx => by rw [List.mem_singleton.mp hx]; norm_num)

end AIHR

namespace AIHR

/-! ## Claim C10: depth bonus uses substring matching, topics whole-word -/

/-- A THEORY question expecting the topic "logic", which is also a
technical-vocabulary keyword. -/
def logicQuestion : Question := ⟨1, "python", "easy", "theory", "q-logic", ["logic"]⟩

/-- A summary whose single answer contains "logic" only inside the longer
word "illogical". -/
def illogicalSummary : SessionSummary :=
  ⟨"s2", "Cara", 1, 1, 1, .finished, [⟨1, "illogical", 1, false⟩]⟩

/-- A summary whose single answer contains no technical keyword at all. -/
def noKeywordSummary : SessionSummary :=
  ⟨"s3", "Dan", 1, 1, 1, .finished, [⟨1, "zzz", 1, false⟩]⟩

/-- C10: the +5 technical-vocabulary bonus is granted by a plain substring
test on the lowercased answer text, while expected-topic matching requires a
whole-word occurrence: "illogical" contains the keyword "logic" as a
substring but not as a whole word, so the answer earns the +5 bonus and no
topic credit (knowledge 5); an answer without the substring earns nothing
(knowledge 0). -/
theorem depth_bonus_substring_not_whole_word :
    containsStr (strLower "illogical") "logic" = true ∧
    wholeWordMatch (strLower "illogical") (strLower "logic") = false ∧
    (calculate_technical_scores illogicalSummary [logicQuestion]).knowledge = 5 ∧
    (calculate_technical_scores noKeywordSummary [logicQuestion]).knowledge = 0 := by
  have h1 : ((["logic"] : List String).filter
      (fun topic => wholeWordMatch (strLower "illogical") (strLower topic))).length = 0 := by
    decide
  have h2 : (technical_keywords.filter
      (fun word => containsStr (strLower "illogical") word)).length = 1 := by decide
  have h3 : ((["logic"] : List String).filter
      (fun topic => wholeWordMatch (strLower "zzz") (strLower topic))).length = 0 := by
    decide
  have h4 : (technical_keywords.filter
      (fun word => containsStr (strLower "zzz") word)).length = 0 := by decide
  refine ⟨by decide, by decide, ?_, ?_⟩
  · have hs : scoreLists [logicQuestion] illogicalSummary.answers = ([5], [4]) := by
      simp +decide only [scoreLists, qLookup, logicQuestion, illogicalSummary, h1, h2]
      norm_num [pymin, h1, h2]
    simp only [calculate_technical_scores, hs]
    norm_num [meanList]
  · have hs : scoreLists [logicQuestion] noKeywordSummary.answers = ([0], [0]) := by
      simp +decide only [scoreLists, qLookup, logicQuestion, noKeywordSummary, h3, h4]
      norm_num [pymin, h3, h4]
    simp only [calculate_technical_scores, hs]
    norm_num [meanList]

end AIHR
